import Mathlib

/-!
Verification of the typographic outline-extraction pipeline in `src/main.py`:
span merging, body-style detection, heading classification, level assignment,
title selection and document orchestration.  Geometry and font sizes are
modelled as rationals (the source uses floats with decimal thresholds such as
0.1, 0.9, 1.1, 1.2, 0.25, which are exact in ℚ); text is modelled as strings of
characters, with `Char.isAlpha`/`Char.isDigit` standing for Python's
`str.isalpha`/`\d` on the ASCII fragment.
-/

/-- A raw text span as delivered by the rendering layer:
`{text, size, font, flags, bbox}`.  `flags` is the style bitmask; bit 1
indicates boldness (`flags & 2` in the source). -/
structure RawSpan where
  text : String
  size : ℚ
  font : String
  flags : Nat
  x0 : ℚ
  y0 : ℚ
  x1 : ℚ
  y1 : ℚ
deriving DecidableEq

/-- A merged span: the source mutates a copied span dict, adding a `bold`
field; here it is an explicit field. -/
structure MSpan where
  text : String
  size : ℚ
  font : String
  bold : Bool
  x0 : ℚ
  y0 : ℚ
  x1 : ℚ
  y1 : ℚ
deriving DecidableEq

/-- Source: `span['bold'] = (span.get('flags', 0) & 2) != 0` in `merge_and_clean_spans`. -/
def spanBold (s : RawSpan) : Bool := Nat.testBit s.flags 1

/-- The copied span that opens a new merged group (`merged.append(span.copy())`
after the `bold` field was set). -/
def toMSpan (s : RawSpan) : MSpan :=
  { text := s.text, size := s.size, font := s.font, bold := spanBold s,
    x0 := s.x0, y0 := s.y0, x1 := s.x1, y1 := s.y1 }

/-- The merge test of `merge_and_clean_spans`:
`span['font'] == merged[-1]['font'] and abs(span['size'] - merged[-1]['size']) < 0.1
and abs(merged[-1]['bbox'][2] - span['bbox'][0]) < 10`. -/
def canMerge (m : MSpan) (s : RawSpan) : Bool :=
  s.font == m.font && decide (|s.size - m.size| < (1/10 : ℚ))
    && decide (|m.x1 - s.x0| < (10 : ℚ))

/-- Appending a raw span onto the open merged span: concatenate text, union the
bounding boxes coordinate-wise, OR the boldness; font and size stay those of
the first constituent. -/
def appendSpan (m : MSpan) (s : RawSpan) : MSpan :=
  { text := m.text ++ s.text, size := m.size, font := m.font,
    bold := m.bold || spanBold s,
    x0 := min m.x0 s.x0, y0 := min m.y0 s.y0,
    x1 := max m.x1 s.x1, y1 := max m.y1 s.y1 }

/-- Loop of `merge_and_clean_spans`; the accumulator keeps the merged spans in
reverse order, its head being the currently open merged span (`merged[-1]`). -/
def mergeAux : List MSpan → List RawSpan → List MSpan
  | acc, [] => acc.reverse
  | [], s :: rest => mergeAux [toMSpan s] rest
  | m :: ms, s :: rest =>
      if canMerge m s then mergeAux (appendSpan m s :: ms) rest
      else mergeAux (toMSpan s :: m :: ms) rest

/-- Source: `merge_and_clean_spans(spans)` from `src/main.py`. -/
def merge_and_clean_spans (spans : List RawSpan) : List MSpan :=
  mergeAux [] spans

/-- Python's `\w` on the ASCII fragment: letters, digits, underscore. -/
def isWordChar (c : Char) : Bool := c.isAlphanum || c == '_'

/-- Source: `re.search(r'(\w)\1{2,}', text)`: some word character occurs three or more
times consecutively. -/
def hasTripleRepeat : List Char → Bool
  | c1 :: c2 :: c3 :: rest =>
      (isWordChar c1 && c1 == c2 && c2 == c3) || hasTripleRepeat (c2 :: c3 :: rest)
  | _ => false

/-- The claim's broader reading of the noise guard: ANY character repeated
three or more times consecutively (not restricted to word characters). -/
def hasTripleRepeatAnyChar : List Char → Bool
  | c1 :: c2 :: c3 :: rest =>
      (c1 == c2 && c2 == c3) || hasTripleRepeatAnyChar (c2 :: c3 :: rest)
  | _ => false

/-- Source: `re.match(r'^[a-zA-Z]\)$', text)`: the whole text is a single ASCII letter
followed by a closing parenthesis. -/
def isLetterParenMarker (cs : List Char) : Bool :=
  match cs with
  | [c, d] => c.isAlpha && d == ')'
  | _ => false

/-- Helper for `^\(\d+\)$`: one or more digits followed by the final `)`. -/
def digitsThenCloseParen : List Char → Bool
  | [] => false
  | c :: rest => if c.isDigit then digitsThenCloseParen rest else c == ')' && rest == []

/-- Source: `re.match(r'^\(\d+\)$', text)`: the whole text is `(` + digits + `)`. -/
def isParenNumMarker (cs : List Char) : Bool :=
  match cs with
  | c :: d :: rest => c == '(' && d.isDigit && digitsThenCloseParen (d :: rest)
  | _ => false

/-- Source: `text[-1] in '.۔؟'`: the last character is a period, an Arabic full stop,
or an Arabic question mark. -/
def endsSentenceTerminal (cs : List Char) : Bool :=
  match cs.getLast? with
  | some c => c == '.' || c == '۔' || c == '؟'
  | none => false

/-- Source: `re.match(r'^\d+(\.\d+)*', text)` used as a boolean test: since the group
`(\.\d+)*` may match zero times, the regex matches at the start of `text`
exactly when the first character is a digit. -/
def startsWithDigit : List Char → Bool
  | c :: _ => c.isDigit
  | [] => false

/-- Helper for `^(\d+\.)+\d*` as a boolean test: after the leading digit,
consume digits; the match succeeds exactly when the first non-digit character
is a literal dot (the trailing `\d*` and further groups are optional). -/
def digitsThenDot : List Char → Bool
  | [] => false
  | c :: rest => if c.isDigit then digitsThenDot rest else c == '.'

/-- Source: `re.match(r'^(\d+\.)+\d*', text)` used as a boolean test: the text starts
with one or more digits immediately followed by a literal dot. -/
def numDotMatch : List Char → Bool
  | c :: rest => c.isDigit && digitsThenDot rest
  | [] => false

/-- One assembled visual line (`extract_lines` builds these dicts):
trimmed text, nominal font size/name from the first merged span, 1-based page
number, the line bounding box, the page width and the merged spans.
`font_size` is optional because `is_heading_candidate` guards `size is None`. -/
structure Line where
  text : String
  font_size : Option ℚ
  font_name : String
  page_num : Nat
  x0 : ℚ
  y0 : ℚ
  x1 : ℚ
  y1 : ℚ
  page_width : ℚ
  spans : List MSpan
deriving DecidableEq

/-- The dominant (font size, font name) pair returned by `detect_body_style`. -/
structure BodyStyle where
  font_size : ℚ
  font_name : String
deriving DecidableEq

/-- Source: `is_heading_candidate(line, body)` from `src/main.py`. -/
def is_heading_candidate (line : Line) (body : BodyStyle) : Bool :=
  match line.font_size with
  | none => false
  | some size =>
    let cs := line.text.data
    if cs.isEmpty then false
    else if cs.length < 10 then false
    else if ((cs.countP (·.isAlpha) : ℚ) / (max cs.length 1 : ℚ)) < 6/10 then false
    else if hasTripleRepeat cs then false
    else if isLetterParenMarker cs || isParenNumMarker cs then false
    else if endsSentenceTerminal cs && !startsWithDigit cs then false
    else
      let bold := line.spans.any (·.bold)
      let concise := decide (line.x1 - line.x0 < line.page_width * (9/10))
      let large := decide (body.font_size * (11/10) < size)
      let no_dot := !(cs.getLast? == some '.')
      large && concise && no_dot && (bold || decide (body.font_size * (12/10) < size))

/-- A 16-character fully alphabetic bold centered line, 1.3× the body size:
the spec's acceptance example. -/
def lineChapterOverview : Line :=
  { text := "Chapter Overview", font_size := some 13, font_name := "F",
    page_num := 1, x0 := 10, y0 := 0, x1 := 40, y1 := 12, page_width := 100,
    spans := [{ text := "Chapter Overview", size := 13, font := "F", bold := true,
                x0 := 10, y0 := 0, x1 := 40, y1 := 12 }] }

/-- The body style used in the concrete examples: size 10, font `F`. -/
def bodyTen : BodyStyle := { font_size := 10, font_name := "F" }

/-- A line whose text contains `!!!` (a non-word character repeated three
times) but no repeated word character; bold, large, concise. -/
def lineBangs : Line :=
  { text := "Heading Overview!!!", font_size := some 13, font_name := "F",
    page_num := 1, x0 := 10, y0 := 0, x1 := 40, y1 := 12, page_width := 100,
    spans := [{ text := "Heading Overview!!!", size := 13, font := "F", bold := true,
                x0 := 10, y0 := 0, x1 := 40, y1 := 12 }] }

/-- The spec's rejection example for the noise guard. -/
def lineNoise : Line :=
  { text := "aaaaaaaaa bold heading", font_size := some 13, font_name := "F",
    page_num := 1, x0 := 10, y0 := 0, x1 := 40, y1 := 12, page_width := 100,
    spans := [{ text := "aaaaaaaaa bold heading", size := 13, font := "F", bold := true,
                x0 := 10, y0 := 0, x1 := 40, y1 := 12 }] }

/-- Descending insertion for `sorted(..., reverse=True)`. -/
def insertDesc (x : ℚ) : List ℚ → List ℚ
  | [] => [x]
  | y :: ys => if y ≤ x then x :: y :: ys else y :: insertDesc x ys

/-- Descending sort used by `sorted({...}, reverse=True)` (the input is
duplicate-free, so any comparison sort yields the same list). -/
def sortDesc : List ℚ → List ℚ
  | [] => []
  | x :: xs => insertDesc x (sortDesc xs)

/-- Index of the first occurrence of `s`, modelling the lookup in the
`{s: f"H{i+1}" for i, s in enumerate(sizes[:3])}` dictionary. -/
def firstIdx (s : ℚ) : List ℚ → Option Nat
  | [] => none
  | x :: xs => if x = s then some 0 else (firstIdx s xs).map (· + 1)

/-- Source: `sorted({h['font_size'] for h in headings}, reverse=True)`: the distinct
font sizes of the candidates, descending. -/
def distinct_sizes (headings : List Line) : List ℚ :=
  sortDesc (headings.filterMap Line.font_size).dedup

/-- The level a candidate ends up with in `assign_heading_levels`
(`top` is `sizes[:3]`): the size-based level from the top-3 map, overridden by
`H{min(3, depth+1)}` with `depth = h['text'].count('.')` whenever the text
matches `^(\d+\.)+\d*`; `none` when the candidate gets no `level` key. -/
def headingLevel (top : List ℚ) (h : Line) : Option String :=
  let sizeLvl : Option String :=
    match h.font_size with
    | some s => (firstIdx s top).map (fun i => "H" ++ toString (i+1))
    | none => none
  if numDotMatch h.text.data then
    some ("H" ++ toString (min 3 (h.text.data.count '.' + 1)))
  else sizeLvl

/-- Source: `assign_heading_levels(headings)` from `src/main.py`: candidates paired
with their final level; candidates with no level are dropped (`'level' in h`).
The source mutates the dicts; here the pair carries the level. -/
def assign_heading_levels (headings : List Line) : List (Line × String) :=
  let top := (distinct_sizes headings).take 3
  headings.filterMap (fun h => (headingLevel top h).map (fun lvl => (h, lvl)))

/-- An outline entry `{"level": .., "text": .., "page": ..}`. -/
structure OutlineEntry where
  level : String
  text : String
  page : Nat
deriving DecidableEq

/-- The outline comprehension in `process_pdf`: project the labeled candidates
to entries, keeping those with `h["level"] in ["H1", "H2", "H3"]`. -/
def outlineOf (labeled : List (Line × String)) : List OutlineEntry :=
  labeled.filterMap (fun p =>
    if p.2 ∈ (["H1", "H2", "H3"] : List String) then
      some { level := p.2, text := p.1.text, page := p.1.page_num }
    else none)

/-- A candidate heading line with the given text and size (page 1, width 50
of a 100-wide page, single non-bold span). -/
def mkHeading (t : String) (s : ℚ) : Line :=
  { text := t, font_size := some s, font_name := "F", page_num := 1,
    x0 := 0, y0 := 0, x1 := 50, y1 := 10, page_width := 100,
    spans := [{ text := t, size := s, font := "F", bold := false,
                x0 := 0, y0 := 0, x1 := 50, y1 := 10 }] }

/-- The spec's level-mapping example: candidate sizes 24, 20, 20, 16, 16, 16, 14. -/
def sampleHeadings : List Line :=
  [mkHeading "Alpha Section Overview" 24,
   mkHeading "Beta Section Overview" 20,
   mkHeading "Gamma Section Overview" 20,
   mkHeading "Delta Section Overview" 16,
   mkHeading "Epsilon Section Data" 16,
   mkHeading "Zeta Section Details" 16,
   mkHeading "Eta Section Notes" 14]

/-- Consume one-or-more leading digits; `none` when the text does not start
with a digit. -/
def dropDigits1 : List Char → Option (List Char)
  | c :: rest => if c.isDigit then some (rest.dropWhile (·.isDigit)) else none
  | [] => none

/-- Fuel-driven count of the `\d+\.` groups consumed by a greedy match of
`(\d+\.)+\d*` at the head of the text. -/
def prefixDotsFuel : Nat → List Char → Nat
  | 0, _ => 0
  | fuel+1, cs =>
    match dropDigits1 cs with
    | some ('.' :: rest) => 1 + prefixDotsFuel fuel rest
    | _ => 0

/-- The number of literal dots inside the prefix matched by `^(\d+\.)+\d*` —
the quantity the claim says the level override uses. -/
def prefixDots (cs : List Char) : Nat := prefixDotsFuel cs.length cs

/-- A candidate whose text has one dot in the numeric-outline prefix but three
dots in total. -/
def lineUSTrade : Line := mkHeading "1. History of U.S. Trade" 14

/-- The spec's numeric-override example. -/
def lineMethodology : Line := mkHeading "2.3.1 Methodology" 9

/-- The pairs counted by `detect_body_style`:
`(line['font_size'], line['font_name']) for line in lines if line['font_size']`.
Python truthiness: `None` and `0.0` are both falsy. -/
def truthyPairs (lines : List Line) : List (ℚ × String) :=
  lines.filterMap (fun l =>
    match l.font_size with
    | some s => if s = 0 then none else some (s, l.font_name)
    | none => none)

/-- The pairs the claim says are counted: every line whose font size is
non-null (including size 0). -/
def nonnullPairs (lines : List Line) : List (ℚ × String) :=
  lines.filterMap (fun l => l.font_size.map (fun s => (s, l.font_name)))

/-- Keys of the `collections.Counter` in first-encounter (insertion) order. -/
def keysAux : List (ℚ × String) → List (ℚ × String) → List (ℚ × String)
  | _, [] => []
  | seen, p :: ps => if p ∈ seen then keysAux seen ps else p :: keysAux (p :: seen) ps

def insertionKeys (ps : List (ℚ × String)) : List (ℚ × String) := keysAux [] ps

/-- Source: `counter.most_common(1)[0]` (via `heapq.nlargest`): the first key, in the
counter's insertion order, whose count is maximal; `none` when the counter is
empty (the source raises `IndexError` there). -/
def most_common1 (ps : List (ℚ × String)) : Option (ℚ × String) :=
  (insertionKeys ps).find?
    (fun k => (insertionKeys ps).all (fun j => decide (ps.count j ≤ ps.count k)))

/-- Source: `detect_body_style(lines)` from `src/main.py`. -/
def detect_body_style (lines : List Line) : Option BodyStyle :=
  (most_common1 (truthyPairs lines)).map (fun p => { font_size := p.1, font_name := p.2 })

/-- The claim's variant of the detector, counting over every line with a
non-null font size (the spec's words), for comparison with the source's
truthiness filter. -/
def detect_body_style_nonnull (lines : List Line) : Option BodyStyle :=
  (most_common1 (nonnullPairs lines)).map (fun p => { font_size := p.1, font_name := p.2 })

/-- A line whose font size is the (non-null) float `0.0` — truthiness drops
it, the claim's non-null reading keeps it. -/
def lineZero : Line :=
  { text := "zero sized body text", font_size := some 0, font_name := "A",
    page_num := 1, x0 := 0, y0 := 0, x1 := 10, y1 := 10, page_width := 100,
    spans := [] }

/-- An ordinary size-12 line. -/
def lineTwelve : Line :=
  { text := "normal body text line", font_size := some 12, font_name := "B",
    page_num := 1, x0 := 0, y0 := 0, x1 := 10, y1 := 10, page_width := 100,
    spans := [] }

/-- Whitespace stripped by Python's `str.strip()` (common ASCII cases). -/
def isPySpace (c : Char) : Bool :=
  c == ' ' || c == '\t' || c == '\n' || c == '\r' || c == '\x0b' || c == '\x0c'

/-- Source: `str.strip()` on the character list. -/
def trimChars (cs : List Char) : List Char :=
  ((cs.dropWhile isPySpace).reverse.dropWhile isPySpace).reverse

/-- Source: `str.strip()`. -/
def strTrim (s : String) : String := String.mk (trimChars s.data)

/-- The metadata-title test of `extract_best_title`:
`doc.metadata and doc.metadata.get('title') and len(doc.metadata['title'].strip()) > 10`. -/
def metaApplies : Option String → Bool
  | some t => decide (10 < (trimChars t.data).length)
  | none => false

/-- Source: `[l for l in lines if l['page_num'] == 1]`. -/
def page1Pool (lines : List Line) : List Line :=
  lines.filter (fun l => l.page_num == 1)

/-- The sort key `-x['font_size']` (sizes are present on lines built by
`extract_lines`; `getD 0` keeps the function total). -/
def lineKey (l : Line) : ℚ := l.font_size.getD 0

/-- Stable descending insertion by font size, matching Python's stable
`sorted(candidates, key=lambda x: -x['font_size'])`. -/
def insLineDesc (x : Line) : List Line → List Line
  | [] => [x]
  | y :: ys => if lineKey y ≤ lineKey x then x :: y :: ys else y :: insLineDesc x ys

def sortBySizeDesc : List Line → List Line
  | [] => []
  | x :: xs => insLineDesc x (sortBySizeDesc xs)

/-- Rule 2 of the title chain as the source writes it: some constituent span
is bold AND the LINE's bounding-box horizontal midpoint is within 25% of the
page width from the page's horizontal center. -/
def rule2Pred (l : Line) : Bool :=
  l.spans.any (·.bold)
    && decide (|(l.x0 + l.x1) / 2 - l.page_width / 2| < l.page_width * (1/4))

/-- Rule 2 as the claim words it: some constituent span is bold and THAT
SPAN's bounding-box horizontal midpoint is within 25% of the page width from
the page's horizontal center. -/
def rule2PredSpanCentered (l : Line) : Bool :=
  l.spans.any (fun sp =>
    sp.bold && decide (|(sp.x0 + sp.x1) / 2 - l.page_width / 2| < l.page_width * (1/4)))

/-- Rule 3 of the title chain: `len(line['text']) > 20` and alphabetic ratio
strictly above 0.5. -/
def rule3Pred (l : Line) : Bool :=
  decide (20 < l.text.length)
    && decide ((1/2 : ℚ) < (l.text.data.countP (·.isAlpha) : ℚ) / (l.text.length : ℚ))

/-- Rules 2–4 of `extract_best_title` over the page-1 candidates. -/
def titleFromLines (lines : List Line) : String :=
  let candidates := page1Pool lines
  match (sortBySizeDesc candidates).find? rule2Pred with
  | some l => strTrim l.text
  | none =>
    match candidates.find? rule3Pred with
    | some l => strTrim l.text
    | none => "Untitled"

/-- Source: `extract_best_title(pdf_path, lines)` from `src/main.py`, with the
document metadata title passed explicitly instead of re-opening the file. -/
def extract_best_title (mt : Option String) (lines : List Line) : String :=
  match mt with
  | some t => if 10 < (trimChars t.data).length then strTrim t else titleFromLines lines
  | none => titleFromLines lines

/-- The claim's variant of the title selector whose rule 2 centers the BOLD
SPAN's own bounding box, for comparison with the source. -/
def titleFromLinesSpanCentered (lines : List Line) : String :=
  let candidates := page1Pool lines
  match (sortBySizeDesc candidates).find? rule2PredSpanCentered with
  | some l => strTrim l.text
  | none =>
    match candidates.find? rule3Pred with
    | some l => strTrim l.text
    | none => "Untitled"

/-- The claim's variant of `extract_best_title` (span-centered rule 2). -/
def extract_best_title_span_centered (mt : Option String) (lines : List Line) : String :=
  match mt with
  | some t => if 10 < (trimChars t.data).length then strTrim t else titleFromLinesSpanCentered lines
  | none => titleFromLinesSpanCentered lines

/-- A page-1 line whose bounding box is centered but whose only bold span sits
at the far left. -/
def lineLeftBold : Line :=
  { text := "Quarterly Report", font_size := some 14, font_name := "F",
    page_num := 1, x0 := 0, y0 := 0, x1 := 100, y1 := 10, page_width := 100,
    spans := [{ text := "Qu", size := 14, font := "F", bold := true,
                x0 := 0, y0 := 0, x1 := 10, y1 := 10 },
              { text := "arterly Report", size := 14, font := "F", bold := false,
                x0 := 10, y0 := 0, x1 := 100, y1 := 10 }] }

/-- A page-1 line that is bold and centered (both as a line and as a span). -/
def lineCenterBold : Line :=
  { text := "Centered Bold Title", font_size := some 13, font_name := "F",
    page_num := 1, x0 := 30, y0 := 0, x1 := 70, y1 := 10, page_width := 100,
    spans := [{ text := "Centered Bold Title", size := 13, font := "F", bold := true,
                x0 := 30, y0 := 0, x1 := 70, y1 := 10 }] }

/-- The serialized result `{"title": .., "outline": [..]}`. -/
structure DocumentResult where
  title : String
  outline : List OutlineEntry
deriving DecidableEq

/-- Source: `process_pdf` from `src/main.py`, with the document presented as its
extracted lines plus optional metadata title (the parsing layer is external).
`Except.ok none` is the absent result (`return None` on no lines);
`Except.error ()` models the uncaught `IndexError` that
`detect_body_style` raises when no line has a truthy font size. -/
def process_pdf (mt : Option String) (lines : List Line) :
    Except Unit (Option DocumentResult) :=
  if lines.isEmpty then Except.ok none
  else
    match detect_body_style lines with
    | none => Except.error ()
    | some body =>
      let heading_lines := lines.filter (fun l => is_heading_candidate l body)
      let labeled := assign_heading_levels heading_lines
      let outline := outlineOf labeled
      let title := extract_best_title mt
        (if heading_lines.isEmpty then lines else heading_lines)
      Except.ok (some { title := title, outline := outline })

/-- The claim's variant of `process_pdf` whose title pool is the LEVELED
candidate set (`labeled`) when non-empty, for comparison with the source's
`heading_lines or lines`. -/
def process_pdf_leveled_pool (mt : Option String) (lines : List Line) :
    Except Unit (Option DocumentResult) :=
  if lines.isEmpty then Except.ok none
  else
    match detect_body_style lines with
    | none => Except.error ()
    | some body =>
      let heading_lines := lines.filter (fun l => is_heading_candidate l body)
      let labeled := assign_heading_levels heading_lines
      let outline := outlineOf labeled
      let title := extract_best_title mt
        (if labeled.isEmpty then lines else labeled.map Prod.fst)
      Except.ok (some { title := title, outline := outline })

/-- The title of a present result, if any. -/
def resultTitle : Except Unit (Option DocumentResult) → Option String
  | Except.ok (some r) => some r.title
  | _ => none

/-- A size-10 body-text line on page 2. -/
def bodyLineTen : Line :=
  { text := "plain body paragraph text", font_size := some 10, font_name := "F",
    page_num := 2, x0 := 0, y0 := 0, x1 := 80, y1 := 10, page_width := 100,
    spans := [{ text := "plain body paragraph text", size := 10, font := "F",
                bold := false, x0 := 0, y0 := 0, x1 := 80, y1 := 10 }] }

/-- A document whose classifier output has four candidates (sizes 24, 20, 16,
13) of which the size-13 bold centered one is dropped by the leveler, plus
five size-10 body lines fixing the body style at (10, "F"). -/
def poolDoc : List Line :=
  [mkHeading "Alpha Section Overview" 24,
   mkHeading "Beta Section Overview" 20,
   mkHeading "Gamma Section Overview" 16,
   lineCenterBold,
   bodyLineTen, bodyLineTen, bodyLineTen, bodyLineTen, bodyLineTen]

theorem canMerge_iff (m : MSpan) (s : RawSpan) :
    canMerge m s = true ↔
      s.font = m.font ∧ |s.size - m.size| < (1/10 : ℚ) ∧ |m.x1 - s.x0| < (10 : ℚ) := by
  simp [canMerge, and_assoc]

theorem mergeAux_cons (m : MSpan) (ms : List MSpan) (s : RawSpan) (rest : List RawSpan) :
    mergeAux (m :: ms) (s :: rest) =
      if canMerge m s then mergeAux (appendSpan m s :: ms) rest
      else mergeAux (toMSpan s :: m :: ms) rest := rfl

/-- C4. A raw span is appended onto the currently open merged span exactly
when its font name matches, its size differs by less than 0.1 and the
horizontal gap to the open span's right edge is less than 10 units; the append
concatenates the text, unions the bounding boxes coordinate-wise and ORs the
boldness.  In particular, two consecutive spans meeting all three conditions
always merge into one span, and two spans violating one of them never do. -/
theorem merge_and_clean_spans_append_iff :
    ∀ (m : MSpan) (ms : List MSpan) (s : RawSpan) (rest : List RawSpan)
      (s1 s2 : RawSpan),
      (mergeAux (m :: ms) (s :: rest) =
        if s.font = m.font ∧ |s.size - m.size| < (1/10 : ℚ) ∧ |m.x1 - s.x0| < (10 : ℚ)
        then mergeAux
          ({ text := m.text ++ s.text, size := m.size, font := m.font,
             bold := m.bold || spanBold s,
             x0 := min m.x0 s.x0, y0 := min m.y0 s.y0,
             x1 := max m.x1 s.x1, y1 := max m.y1 s.y1 } :: ms) rest
        else mergeAux (toMSpan s :: m :: ms) rest)
      ∧ (merge_and_clean_spans [s1, s2] =
        if s2.font = s1.font ∧ |s2.size - s1.size| < (1/10 : ℚ) ∧ |s1.x1 - s2.x0| < (10 : ℚ)
        then [{ text := s1.text ++ s2.text, size := s1.size, font := s1.font,
                bold := spanBold s1 || spanBold s2,
                x0 := min s1.x0 s2.x0, y0 := min s1.y0 s2.y0,
                x1 := max s1.x1 s2.x1, y1 := max s1.y1 s2.y1 }]
        else [toMSpan s1, toMSpan s2]) := by
  intro m ms s rest s1 s2
  constructor
  · by_cases h : s.font = m.font ∧ |s.size - m.size| < (1/10 : ℚ) ∧ |m.x1 - s.x0| < (10 : ℚ)
    · have hc : canMerge m s = true := (canMerge_iff m s).mpr h
      rw [if_pos h, mergeAux_cons, if_pos hc]
      rfl
    · have hc : ¬ (canMerge m s = true) := fun ht => h ((canMerge_iff m s).mp ht)
      rw [if_neg h, mergeAux_cons, if_neg hc]
  · by_cases h : s2.font = s1.font ∧ |s2.size - s1.size| < (1/10 : ℚ) ∧ |s1.x1 - s2.x0| < (10 : ℚ)
    · have hc : canMerge (toMSpan s1) s2 = true := by
        rw [canMerge_iff]
        simpa [toMSpan] using h
      rw [if_pos h]
      show mergeAux [toMSpan s1] [s2] = _
      rw [mergeAux_cons, if_pos hc]
      rfl
    · have hc : ¬ (canMerge (toMSpan s1) s2 = true) := fun ht =>
        h (by simpa [toMSpan] using (canMerge_iff (toMSpan s1) s2).mp ht)
      rw [if_neg h]
      show mergeAux [toMSpan s1] [s2] = _
      rw [mergeAux_cons, if_neg hc]
      rfl

/-- C1. For every line that passes the rejection filters (length ≥ 10,
alphabetic ratio ≥ 0.6, no repeated-word-character noise, not a list marker,
not sentence-terminal without a leading digit) and every body style, the
classifier accepts exactly when the size exceeds 1.1× the body size, the box
width is below 0.9× the page width, the text does not end in a literal period,
and some merged span is bold or the size exceeds 1.2× the body size. -/
theorem is_heading_candidate_accept_iff :
    ∀ (line : Line) (body : BodyStyle),
      10 ≤ line.text.data.length →
      ¬ (((line.text.data.countP (·.isAlpha) : ℚ) / (max line.text.data.length 1 : ℚ)) < 6/10) →
      hasTripleRepeat line.text.data = false →
      isLetterParenMarker line.text.data = false →
      isParenNumMarker line.text.data = false →
      (endsSentenceTerminal line.text.data = true → startsWithDigit line.text.data = true) →
      (is_heading_candidate line body = true ↔
        ((∃ s, line.font_size = some s ∧ body.font_size * (11/10) < s)
         ∧ line.x1 - line.x0 < line.page_width * (9/10)
         ∧ line.text.data.getLast? ≠ some '.'
         ∧ (line.spans.any (·.bold) = true
            ∨ ∃ s, line.font_size = some s ∧ body.font_size * (12/10) < s))) := by
  intro line body h10 hratio htr hlp hpn hst
  cases hfs : line.font_size with
  | none => simp [is_heading_candidate, hfs]
  | some s =>
    have hne : line.text.data.isEmpty = false := by
      cases hcs : line.text.data with
      | nil => rw [hcs] at h10; simp at h10
      | cons a l => simp [hcs]
    have hlen : ¬ (line.text.data.length < 10) := by omega
    have h6 : (endsSentenceTerminal line.text.data && !startsWithDigit line.text.data) = false := by
      cases he : endsSentenceTerminal line.text.data
      · simp
      · simp [hst he]
    simp only [is_heading_candidate, hfs, hne, hlen, htr, hlp, hpn, h6,
      Bool.false_eq_true, if_false, Bool.or_self, Bool.and_eq_true,
      Bool.or_eq_true, decide_eq_true_iff, Option.some.injEq, exists_eq_left,
      Bool.not_eq_true', beq_eq_false_iff_ne, ne_eq, List.any_eq_true]
    simp [and_assoc]
    intro _ _ _ _
    exact not_lt.mp hratio

/-- Witness for C1: `"Chapter Overview"` (bold, 30% of page width, 1.3× body
size, no trailing period) is accepted. -/
theorem is_heading_candidate_accept_iff_witness :
    is_heading_candidate lineChapterOverview bodyTen = true :=
  (is_heading_candidate_accept_iff lineChapterOverview bodyTen
      (by decide) (by with_unfolding_all decide) (by decide) (by decide)
      (by decide) (by decide)).mpr
    ⟨⟨13, rfl, by with_unfolding_all decide⟩, by with_unfolding_all decide,
      by decide, Or.inl (by decide)⟩

/-- C8, counterexample. The claim says a line containing ANY character
repeated 3+ times consecutively is rejected; but the source guard
`re.search(r'(\w)\1{2,}', text)` only fires on word characters, so a line
containing `!!!` is still accepted. -/
theorem triple_repeat_any_char_counterexample :
    hasTripleRepeatAnyChar lineBangs.text.data = true
    ∧ is_heading_candidate lineBangs bodyTen = true := by
  constructor
  · decide
  · with_unfolding_all decide

/-- C8, amended. For every line whose text contains some WORD character
(letter, digit or underscore) repeated 3+ times consecutively, and every body
style, the classifier rejects the line regardless of size, boldness or
geometry. -/
theorem triple_repeat_rejects :
    ∀ (line : Line) (body : BodyStyle),
      hasTripleRepeat line.text.data = true →
      is_heading_candidate line body = false := by
  intro line body h
  cases hfs : line.font_size with
  | none => simp [is_heading_candidate, hfs]
  | some s => simp [is_heading_candidate, hfs, h]

/-- Witness for the amended C8: `"aaaaaaaaa bold heading"` is rejected. -/
theorem triple_repeat_rejects_witness :
    is_heading_candidate lineNoise bodyTen = false :=
  triple_repeat_rejects lineNoise bodyTen (by decide)

theorem insertDesc_perm (x : ℚ) (l : List ℚ) : List.Perm (insertDesc x l) (x :: l) := by
  induction l with
  | nil => exact List.Perm.refl _
  | cons y ys ih =>
    by_cases h : y ≤ x
    · simp [insertDesc, h]
    · simp only [insertDesc, if_neg h]
      exact List.Perm.trans (ih.cons y) (List.Perm.swap x y ys)

theorem sortDesc_perm (l : List ℚ) : List.Perm (sortDesc l) l := by
  induction l with
  | nil => exact List.Perm.refl _
  | cons x xs ih =>
    exact List.Perm.trans (insertDesc_perm x (sortDesc xs)) (ih.cons x)

theorem sortDesc_nodup (l : List ℚ) (h : l.Nodup) : (sortDesc l).Nodup :=
  ((sortDesc_perm l).nodup_iff).mpr h

theorem get?_take_lt {α : Type} : ∀ (l : List α) (n i : Nat), i < n →
    (l.take n).get? i = l.get? i := by
  intro l
  induction l with
  | nil => intro n i _; simp
  | cons a t ih =>
    intro n i hi
    cases n with
    | zero => omega
    | succ n' =>
      cases i with
      | zero => simp
      | succ i' => simpa using ih n' i' (by omega)

theorem firstIdx_of_get? : ∀ (l : List ℚ) (i : Nat) (s : ℚ), l.Nodup →
    l.get? i = some s → firstIdx s l = some i := by
  intro l
  induction l with
  | nil => intro i s _ h; simp at h
  | cons x xs ih =>
    intro i s hnd hget
    cases i with
    | zero =>
      simp only [List.get?] at hget
      cases hget
      simp [firstIdx]
    | succ i' =>
      have hget' : xs.get? i' = some s := hget
      have hmem : s ∈ xs := List.get?_mem hget'
      have hx : ¬ (x = s) := by
        intro he
        exact (List.nodup_cons.mp hnd).1 (he ▸ hmem)
      simp only [firstIdx, if_neg hx]
      rw [ih i' s (List.nodup_cons.mp hnd).2 hget']
      rfl

theorem firstIdx_eq_none_of_not_mem (s : ℚ) :
    ∀ (l : List ℚ), s ∉ l → firstIdx s l = none := by
  intro l
  induction l with
  | nil => intro _; rfl
  | cons x xs ih =>
    intro hn
    have hx : ¬ (x = s) := fun he => hn (he ▸ List.mem_cons_self x xs)
    have hxs : s ∉ xs := fun hm => hn (List.mem_cons_of_mem x hm)
    simp [firstIdx, hx, ih hxs]

theorem firstIdx_lt_length (s : ℚ) :
    ∀ (l : List ℚ) (i : Nat), firstIdx s l = some i → i < l.length := by
  intro l
  induction l with
  | nil => intro i h; simp [firstIdx] at h
  | cons x xs ih =>
    intro i h
    by_cases hx : x = s
    · simp only [firstIdx, if_pos hx, Option.some.injEq] at h
      simp only [List.length_cons]
      omega
    · simp only [firstIdx, if_neg hx, Option.map_eq_some'] at h
      obtain ⟨j, hj, hji⟩ := h
      have := ih j hj
      simp only [List.length_cons]
      omega

/-- C2. With all candidate sizes present, the distinct sizes sorted
descending map index 0/1/2 to H1/H2/H3: a candidate at index `i < 3` of the
distinct-size list (and with no numeric-outline override) appears in the
output with level `H(i+1)`, and a candidate whose size is beyond the third
distinct size (and with no numeric-outline text) is absent from the output. -/
theorem assign_heading_levels_top3 :
    ∀ (headings : List Line) (h : Line) (s : ℚ) (i : Nat),
      (∀ g ∈ headings, (Line.font_size g).isSome = true) →
      h ∈ headings → h.font_size = some s →
      numDotMatch h.text.data = false →
      ((i < 3 → (distinct_sizes headings).get? i = some s →
          (h, "H" ++ toString (i+1)) ∈ assign_heading_levels headings)
       ∧ ((∀ j, j < 3 → (distinct_sizes headings).get? j ≠ some s) →
          ∀ lvl, (h, lvl) ∉ assign_heading_levels headings)) := by
  intro headings h s i hall hmem hfs hnum
  have hnd : (distinct_sizes headings).Nodup :=
    sortDesc_nodup _ (List.nodup_dedup _)
  constructor
  · intro hi hget
    have htop : ((distinct_sizes headings).take 3).get? i = some s := by
      rw [get?_take_lt _ 3 i hi]
      exact hget
    have hndtop : ((distinct_sizes headings).take 3).Nodup :=
      hnd.sublist (List.take_sublist 3 _)
    have hfi : firstIdx s ((distinct_sizes headings).take 3) = some i :=
      firstIdx_of_get? _ i s hndtop htop
    apply List.mem_filterMap.mpr
    refine ⟨h, hmem, ?_⟩
    simp [headingLevel, hfs, hnum, hfi]
  · intro hnone lvl hmem'
    obtain ⟨a, hain, hfa⟩ := List.mem_filterMap.mp hmem'
    obtain ⟨l0, hlev, hpair⟩ := Option.map_eq_some'.mp hfa
    have ha : a = h := congrArg Prod.fst hpair
    subst ha
    have hnotmem : s ∉ (distinct_sizes headings).take 3 := by
      intro hs
      obtain ⟨j, hj⟩ := List.mem_iff_get?.mp hs
      have hjlt : j < ((distinct_sizes headings).take 3).length :=
        List.get?_eq_some.mp hj |>.1
      have hj3 : j < 3 := by
        have := List.length_take 3 (distinct_sizes headings)
        omega
      have : (distinct_sizes headings).get? j = some s := by
        rw [← get?_take_lt _ 3 j hj3]
        exact hj
      exact hnone j hj3 this
    have hfi : firstIdx s ((distinct_sizes headings).take 3) = none :=
      firstIdx_eq_none_of_not_mem s _ hnotmem
    rw [headingLevel, if_neg (by simp [hnum])] at hlev
    simp [hfs, hfi] at hlev

/-- Witness for C2: in the sample, size 16 is the third distinct size and the
corresponding candidate is output with level H3. -/
theorem assign_heading_levels_top3_witness :
    (mkHeading "Delta Section Overview" 16, "H3") ∈ assign_heading_levels sampleHeadings :=
  (assign_heading_levels_top3 sampleHeadings (mkHeading "Delta Section Overview" 16) 16 2
      (by decide) (by decide) (by decide) (by decide)).1 (by decide) (by decide)

/-- C3, counterexample. The claim says the override level is
`H{min(3, prefix_dot_count + 1)}` counting only the dots of the matched
prefix; the source counts every dot in the text (`h['text'].count('.')`).
For `"1. History of U.S. Trade"` the prefix `"1."` has 1 dot, so the claim
predicts H2, but the code assigns H3 (3 dots in the whole text). -/
theorem assign_heading_levels_override_counterexample :
    assign_heading_levels [lineUSTrade] = [(lineUSTrade, "H3")]
    ∧ "H" ++ toString (min 3 (prefixDots lineUSTrade.text.data + 1)) = "H2" := by
  constructor
  · with_unfolding_all decide
  · with_unfolding_all decide

/-- C3, amended. For every candidate whose text matches the leading
numeric-outline pattern `^(\d+\.)+\d*`, the assigned level is
`H{min(3, d+1)}` where `d` is the number of literal dots in the ENTIRE text
(not just the matched prefix), and this override is the candidate's final
level regardless of any size-based level. -/
theorem assign_heading_levels_override :
    ∀ (headings : List Line) (h : Line),
      (∀ g ∈ headings, (Line.font_size g).isSome = true) →
      h ∈ headings → numDotMatch h.text.data = true →
      ((h, "H" ++ toString (min 3 (h.text.data.count '.' + 1)))
          ∈ assign_heading_levels headings
       ∧ ∀ lvl, (h, lvl) ∈ assign_heading_levels headings →
           lvl = "H" ++ toString (min 3 (h.text.data.count '.' + 1))) := by
  intro headings h hall hmem hnum
  constructor
  · apply List.mem_filterMap.mpr
    refine ⟨h, hmem, ?_⟩
    simp [headingLevel, hnum]
  · intro lvl hmem'
    obtain ⟨a, hain, hfa⟩ := List.mem_filterMap.mp hmem'
    obtain ⟨l0, hlev, hpair⟩ := Option.map_eq_some'.mp hfa
    have ha : a = h := congrArg Prod.fst hpair
    subst ha
    have hl : l0 = lvl := congrArg Prod.snd hpair
    subst hl
    rw [headingLevel, if_pos (by simp [hnum])] at hlev
    exact (Option.some.injEq _ _ ▸ hlev).symm

/-- Witness for the amended C3: `"2.3.1 Methodology"` (2 dots) is leveled H3. -/
theorem assign_heading_levels_override_witness :
    (lineMethodology, "H3") ∈ assign_heading_levels [lineMethodology] :=
  (assign_heading_levels_override [lineMethodology] lineMethodology
      (by decide) (by decide) (by decide)).1

theorem outlineOf_length_of_levels :
    ∀ (labeled : List (Line × String)),
      (∀ p ∈ labeled, p.2 ∈ (["H1", "H2", "H3"] : List String)) →
      (outlineOf labeled).length = labeled.length := by
  intro labeled
  induction labeled with
  | nil => intro _; rfl
  | cons p ps ih =>
    intro hall
    have hp : p.2 ∈ (["H1", "H2", "H3"] : List String) :=
      hall p (List.mem_cons_self p ps)
    have hps := fun q hq => hall q (List.mem_cons_of_mem p hq)
    have hstep : outlineOf (p :: ps) =
        { level := p.2, text := p.1.text, page := p.1.page_num } :: outlineOf ps := by
      simp only [outlineOf, List.filterMap_cons]
      rw [if_pos hp]
    rw [hstep]
    simp [List.length_cons, ih hps]

/-- C10. Every candidate returned by the level assigner carries a level
among H1, H2 and H3 (the size map has at most three entries and the numeric
override yields `H{min(3, d+1)}` with 1 ≤ d+1), so the outline projection's
level filter removes nothing: the outline has exactly one entry per leveled
candidate. -/
theorem assign_heading_levels_levels_wellformed :
    ∀ (headings : List Line),
      (∀ g ∈ headings, (Line.font_size g).isSome = true) →
      ((∀ p ∈ assign_heading_levels headings,
          p.2 ∈ (["H1", "H2", "H3"] : List String))
       ∧ (outlineOf (assign_heading_levels headings)).length
           = (assign_heading_levels headings).length) := by
  intro headings hall
  have hmain : ∀ p ∈ assign_heading_levels headings,
      p.2 ∈ (["H1", "H2", "H3"] : List String) := by
    intro p hp
    obtain ⟨a, hain, hfa⟩ := List.mem_filterMap.mp hp
    obtain ⟨l0, hlev, hpair⟩ := Option.map_eq_some'.mp hfa
    have hsnd : p.2 = l0 := by
      rw [← hpair]
    rw [hsnd]
    rw [headingLevel] at hlev
    by_cases hnum : numDotMatch a.text.data = true
    · rw [if_pos (by simp [hnum])] at hlev
      have hl0 : l0 = "H" ++ toString (min 3 (a.text.data.count '.' + 1)) :=
        (Option.some.injEq _ _ ▸ hlev).symm
      rw [hl0]
      have h2 : min 3 (a.text.data.count '.' + 1) = 1
          ∨ min 3 (a.text.data.count '.' + 1) = 2
          ∨ min 3 (a.text.data.count '.' + 1) = 3 := by omega
      rcases h2 with h | h | h <;> rw [h] <;> decide
    · rw [if_neg (by simpa using hnum)] at hlev
      cases hfs : a.font_size with
      | none => rw [hfs] at hlev; simp at hlev
      | some s =>
        rw [hfs] at hlev
        obtain ⟨i, hfi, hl0⟩ := Option.map_eq_some'.mp hlev
        have hilt : i < ((distinct_sizes headings).take 3).length :=
          firstIdx_lt_length s _ i hfi
        have hlen3 : ((distinct_sizes headings).take 3).length ≤ 3 := by
          rw [List.length_take]
          omega
        have h2 : i = 0 ∨ i = 1 ∨ i = 2 := by omega
        rw [← hl0]
        rcases h2 with h | h | h <;> rw [h] <;> decide
  exact ⟨hmain, outlineOf_length_of_levels _ hmain⟩

/-- Witness for C10: on the sample candidates the outline keeps every leveled
candidate. -/
theorem assign_heading_levels_levels_wellformed_witness :
    (outlineOf (assign_heading_levels sampleHeadings)).length
      = (assign_heading_levels sampleHeadings).length :=
  (assign_heading_levels_levels_wellformed sampleHeadings (by decide)).2

/-- C5, counterexample. On three size-0 lines and one size-12 line, the
claim (count over all non-null sizes) picks (0, "A"), but the source's truthy
filter `if line['font_size']` excludes the zero-size lines and returns
(12, "B"). -/
theorem detect_body_style_counterexample :
    detect_body_style [lineZero, lineZero, lineZero, lineTwelve]
        = some { font_size := 12, font_name := "B" }
    ∧ detect_body_style_nonnull [lineZero, lineZero, lineZero, lineTwelve]
        = some { font_size := 0, font_name := "A" } := by
  constructor
  · with_unfolding_all decide
  · with_unfolding_all decide

theorem find?_split {α : Type} (p : α → Bool) :
    ∀ (l : List α) (a : α), l.find? p = some a →
      ∃ l1 l2, l = l1 ++ a :: l2 ∧ ∀ x ∈ l1, p x = false := by
  intro l
  induction l with
  | nil => intro a h; simp at h
  | cons x xs ih =>
    intro a h
    by_cases hx : p x = true
    · rw [List.find?_cons_of_pos _ hx] at h
      cases h
      exact ⟨[], xs, rfl, by simp⟩
    · have hx' : p x = false := by
        revert hx; cases p x <;> simp
      rw [List.find?_cons_of_neg _ (by simp [hx'])] at h
      obtain ⟨l1, l2, heq, hall⟩ := ih a h
      refine ⟨x :: l1, l2, by rw [heq]; rfl, ?_⟩
      intro y hy
      rcases List.mem_cons.mp hy with hyx | hyl
      · rw [hyx]; exact hx'
      · exact hall y hyl

/-- C5, amended. Whenever the detector returns a pair, that pair occurs
among the lines with a truthy (non-null, nonzero) font size, its count is
maximal among all counted (size, font) pairs, and every pair encountered
earlier in the counting pass has a strictly smaller count — on ties, the
first-encountered pair wins. -/
theorem detect_body_style_max_count :
    ∀ (lines : List Line) (b : BodyStyle),
      detect_body_style lines = some b →
      ((b.font_size, b.font_name) ∈ insertionKeys (truthyPairs lines)
       ∧ (∀ k ∈ insertionKeys (truthyPairs lines),
            (truthyPairs lines).count k ≤ (truthyPairs lines).count (b.font_size, b.font_name))
       ∧ ∃ ks1 ks2, insertionKeys (truthyPairs lines)
             = ks1 ++ (b.font_size, b.font_name) :: ks2
           ∧ ∀ k ∈ ks1, (truthyPairs lines).count k
               < (truthyPairs lines).count (b.font_size, b.font_name)) := by
  intro lines b hdet
  obtain ⟨q, hq, hb⟩ := Option.map_eq_some'.mp hdet
  have hqb : q = (b.font_size, b.font_name) := by
    rw [← hb]
  rw [hqb] at hq
  have hmem : (b.font_size, b.font_name) ∈ insertionKeys (truthyPairs lines) :=
    List.mem_of_find?_eq_some hq
  have hpred := List.find?_some hq
  have hmax : ∀ k ∈ insertionKeys (truthyPairs lines),
      (truthyPairs lines).count k ≤ (truthyPairs lines).count (b.font_size, b.font_name) := by
    intro k hk
    have := List.all_eq_true.mp hpred k hk
    exact of_decide_eq_true this
  refine ⟨hmem, hmax, ?_⟩
  obtain ⟨ks1, ks2, heq, hfail⟩ := find?_split _ _ _ hq
  refine ⟨ks1, ks2, heq, ?_⟩
  intro k hk
  have hkmem : k ∈ insertionKeys (truthyPairs lines) := by
    rw [heq]
    exact List.mem_append.mpr (Or.inl hk)
  have hfk := hfail k hk
  have : ¬ (∀ j ∈ insertionKeys (truthyPairs lines),
      (truthyPairs lines).count j ≤ (truthyPairs lines).count k) := by
    intro hall
    have : (insertionKeys (truthyPairs lines)).all
        (fun j => decide ((truthyPairs lines).count j ≤ (truthyPairs lines).count k)) = true :=
      List.all_eq_true.mpr (fun j hj => decide_eq_true (hall j hj))
    rw [hfk] at this
    exact Bool.false_ne_true this
  push_neg at this
  obtain ⟨j, hj, hjk⟩ := this
  have hjle := hmax j hj
  omega

/-- Witness for the amended C5: on the zero/twelve sample the returned pair
(12, "B") is among the counted keys. -/
theorem detect_body_style_max_count_witness :
    ((12 : ℚ), "B") ∈ insertionKeys (truthyPairs [lineZero, lineZero, lineZero, lineTwelve]) :=
  (detect_body_style_max_count [lineZero, lineZero, lineZero, lineTwelve]
      { font_size := 12, font_name := "B" } (by with_unfolding_all decide)).1

/-- C6, counterexample. The claim's rule 2 requires the BOLD SPAN's
midpoint to be near the page center; the source tests the LINE's bounding-box
midpoint (`line['bbox']`).  On a centered line whose bold span sits at the far
left the source returns the line's text while the claim's chain returns
"Untitled". -/
theorem extract_best_title_counterexample :
    extract_best_title none [lineLeftBold] = "Quarterly Report"
    ∧ extract_best_title_span_centered none [lineLeftBold] = "Untitled" := by
  constructor
  · with_unfolding_all decide
  · with_unfolding_all decide

/-- C6, amended. The four-rule priority chain, first match winning:
(1) the trimmed metadata title if its trimmed length exceeds 10; (2) among
page-1 lines by descending font size, the first with a bold constituent span
and with the LINE's bounding-box horizontal midpoint within 25% of the page
width from the page's horizontal center; (3) among page-1 lines in original
order, the first with text length exceeding 20 and alphabetic ratio exceeding
0.5; (4) the literal "Untitled". -/
theorem extract_best_title_priority_chain :
    ∀ (mt : Option String) (lines : List Line),
      ((∀ t, mt = some t → metaApplies mt = true →
          extract_best_title mt lines = strTrim t)
       ∧ (metaApplies mt = false → ∀ l,
            (sortBySizeDesc (page1Pool lines)).find? rule2Pred = some l →
            extract_best_title mt lines = strTrim l.text)
       ∧ (metaApplies mt = false →
            (sortBySizeDesc (page1Pool lines)).find? rule2Pred = none → ∀ l,
            (page1Pool lines).find? rule3Pred = some l →
            extract_best_title mt lines = strTrim l.text)
       ∧ (metaApplies mt = false →
            (sortBySizeDesc (page1Pool lines)).find? rule2Pred = none →
            (page1Pool lines).find? rule3Pred = none →
            extract_best_title mt lines = "Untitled")) := by
  intro mt lines
  cases mt with
  | none =>
    refine ⟨(by intro t ht; cases ht), ?_, ?_, ?_⟩
    · intro _ l h2
      simp [extract_best_title, titleFromLines, h2]
    · intro _ h2 l h3
      simp [extract_best_title, titleFromLines, h2, h3]
    · intro _ h2 h3
      simp [extract_best_title, titleFromLines, h2, h3]
  | some t0 =>
    by_cases hm : 10 < (trimChars t0.data).length
    · refine ⟨?_, ?_, ?_, ?_⟩
      · intro t ht _
        cases ht
        simp [extract_best_title, hm]
      · intro hfalse
        exfalso
        simp [metaApplies] at hfalse
        omega
      · intro hfalse
        exfalso
        simp [metaApplies] at hfalse
        omega
      · intro hfalse
        exfalso
        simp [metaApplies] at hfalse
        omega
    · refine ⟨?_, ?_, ?_, ?_⟩
      · intro t ht htrue
        cases ht
        exact absurd (by simpa [metaApplies] using htrue) hm
      · intro _ l h2
        simp [extract_best_title, if_neg hm, titleFromLines, h2]
      · intro _ h2 l h3
        simp [extract_best_title, if_neg hm, titleFromLines, h2, h3]
      · intro _ h2 h3
        simp [extract_best_title, if_neg hm, titleFromLines, h2, h3]

/-- Witness for the amended C6: a 2-character metadata title is skipped and
the centered bold page-1 line is chosen. -/
theorem extract_best_title_priority_chain_witness :
    extract_best_title (some "AB") [lineCenterBold] = "Centered Bold Title" :=
  (extract_best_title_priority_chain (some "AB") [lineCenterBold]).2.1
    (by decide) lineCenterBold (by with_unfolding_all decide)

/-- C7, counterexample. The source passes `heading_lines or lines` — the
UNLEVELED classifier output — as the title pool, so the dropped size-13
candidate still wins rule 2 and the title is "Centered Bold Title"; under the
claim's leveled pool the dropped candidate is absent and rule 3 picks "Alpha
Section Overview" instead. -/
theorem process_pdf_title_pool_counterexample :
    resultTitle (process_pdf none poolDoc) = some "Centered Bold Title"
    ∧ resultTitle (process_pdf_leveled_pool none poolDoc) = some "Alpha Section Overview" := by
  constructor
  · with_unfolding_all decide
  · with_unfolding_all decide

/-- C7, amended. For every non-empty document whose body style is
determined, the outline builder passes to the title selector, as the
first-page pool, the heading-candidate set — the CLASSIFIER output, including
candidates the leveler later drops — when that set is non-empty, and the full
Line set otherwise. -/
theorem process_pdf_title_pool :
    ∀ (mt : Option String) (lines : List Line) (body : BodyStyle),
      lines.isEmpty = false →
      detect_body_style lines = some body →
      process_pdf mt lines = Except.ok (some
        { title := extract_best_title mt
            (if (lines.filter (fun l => is_heading_candidate l body)).isEmpty
             then lines else lines.filter (fun l => is_heading_candidate l body)),
          outline := outlineOf (assign_heading_levels
            (lines.filter (fun l => is_heading_candidate l body))) }) := by
  intro mt lines body hne hdet
  simp [process_pdf, hne, hdet]

/-- Witness for the amended C7: the sample document evaluates as stated. -/
theorem process_pdf_title_pool_witness :
    process_pdf none poolDoc = Except.ok (some
      { title := extract_best_title none
          (if (poolDoc.filter (fun l =>
                is_heading_candidate l { font_size := 10, font_name := "F" })).isEmpty
           then poolDoc
           else poolDoc.filter (fun l =>
                is_heading_candidate l { font_size := 10, font_name := "F" })),
        outline := outlineOf (assign_heading_levels
          (poolDoc.filter (fun l =>
                is_heading_candidate l { font_size := 10, font_name := "F" }))) }) :=
  process_pdf_title_pool none poolDoc { font_size := 10, font_name := "F" }
    (by decide) (by with_unfolding_all decide)

theorem insertionKeys_ne_nil (p : ℚ × String) (ps : List (ℚ × String)) :
    insertionKeys (p :: ps) ≠ [] := by
  simp [insertionKeys, keysAux]

theorem exists_count_max (ps : List (ℚ × String)) :
    ∀ (ks : List (ℚ × String)), ks ≠ [] →
      ∃ m ∈ ks, ∀ j ∈ ks, ps.count j ≤ ps.count m := by
  intro ks
  induction ks with
  | nil => intro h; exact absurd rfl h
  | cons k ks ih =>
    intro _
    by_cases hks : ks = []
    · subst hks
      exact ⟨k, by simp, by simp⟩
    · obtain ⟨m, hm, hmax⟩ := ih hks
      by_cases hc : ps.count k ≤ ps.count m
      · refine ⟨m, List.mem_cons_of_mem _ hm, ?_⟩
        intro j hj
        rcases List.mem_cons.mp hj with h | h
        · rw [h]; exact hc
        · exact hmax j h
      · push_neg at hc
        refine ⟨k, List.mem_cons_self _ _, ?_⟩
        intro j hj
        rcases List.mem_cons.mp hj with h | h
        · rw [h]
        · exact le_trans (hmax j h) (le_of_lt hc)

theorem most_common1_isSome (ps : List (ℚ × String))
    (h : insertionKeys ps ≠ []) : ∃ q, most_common1 ps = some q := by
  obtain ⟨m, hm, hmax⟩ := exists_count_max ps (insertionKeys ps) h
  cases hfind : most_common1 ps with
  | some q => exact ⟨q, rfl⟩
  | none =>
    exfalso
    have hall := List.find?_eq_none.mp hfind m hm
    have : (insertionKeys ps).all
        (fun j => decide (ps.count j ≤ ps.count m)) = true :=
      List.all_eq_true.mpr (fun j hj => decide_eq_true (hmax j hj))
    rw [this] at hall
    exact hall rfl

/-- C9, counterexample. The claim says every document with at least one
Line yields a present DocumentResult; but on a document whose only line has
font size 0 (non-null, falsy), the counter in `detect_body_style` is empty
and `most_common(1)[0]` raises IndexError — no result at all. -/
theorem process_pdf_presence_counterexample :
    ([lineZero] : List Line) ≠ []
    ∧ process_pdf none [lineZero] = Except.error () := by
  constructor
  · simp
  · with_unfolding_all rfl

/-- C9, amended. An empty Line sequence yields the absent result (never a
present empty-outline result); a non-empty Line sequence yields a present
DocumentResult provided some line has a truthy (non-null, nonzero) font size —
otherwise the body-style step fails with an IndexError. -/
theorem process_pdf_presence :
    ∀ (mt : Option String) (lines : List Line),
      ((lines = [] → process_pdf mt lines = Except.ok none)
       ∧ (lines ≠ [] → (∃ l ∈ lines, ∃ s, l.font_size = some s ∧ s ≠ 0) →
           ∃ r, process_pdf mt lines = Except.ok (some r))) := by
  intro mt lines
  constructor
  · intro h
    subst h
    rfl
  · intro hne hex
    obtain ⟨l, hl, s, hfs, hs0⟩ := hex
    have hpair : (s, l.font_name) ∈ truthyPairs lines := by
      apply List.mem_filterMap.mpr
      exact ⟨l, hl, by simp [hfs, hs0]⟩
    have hker : insertionKeys (truthyPairs lines) ≠ [] := by
      cases htp : truthyPairs lines with
      | nil => rw [htp] at hpair; cases hpair
      | cons p ps => exact insertionKeys_ne_nil p ps
    obtain ⟨q, hq⟩ := most_common1_isSome (truthyPairs lines) hker
    have hdet : detect_body_style lines = some { font_size := q.1, font_name := q.2 } := by
      simp [detect_body_style, hq]
    have hle : lines.isEmpty = false := by
      cases lines with
      | nil => exact absurd rfl hne
      | cons a as => rfl
    have hres : process_pdf mt lines = Except.ok (some
        { title := extract_best_title mt
            (if (lines.filter (fun l => is_heading_candidate l
                  { font_size := q.1, font_name := q.2 })).isEmpty
             then lines
             else lines.filter (fun l => is_heading_candidate l
                  { font_size := q.1, font_name := q.2 })),
          outline := outlineOf (assign_heading_levels
            (lines.filter (fun l => is_heading_candidate l
                  { font_size := q.1, font_name := q.2 }))) }) := by
      simp [process_pdf, hle, hdet]
    exact ⟨_, hres⟩

/-- Witness for the amended C9: the empty document gives the absent result,
and a one-line document with a truthy size gives a present result. -/
theorem process_pdf_presence_witness :
    process_pdf none ([] : List Line) = Except.ok none
    ∧ ∃ r, process_pdf none [lineTwelve] = Except.ok (some r) :=
  ⟨(process_pdf_presence none []).1 rfl,
   (process_pdf_presence none [lineTwelve]).2 (by simp)
     ⟨lineTwelve, by simp, 12, rfl, by decide⟩⟩
